import Mathlib

/-!
Verification of the quaternion-calculator core (`TSMT$Quaternion`, the `Q`
value holder and the memory reducer) against its specification.

The TypeScript class `TSMT$Quaternion` keeps its state in a 4-element array
`_q` whose documented meaning is `_q[0] + _q[1]·i + _q[2]·j + _q[3]·k`,
i.e. index 0 is the real (w) part.  JavaScript numbers are modelled as real
numbers; methods that mutate `this` are modelled as functions returning the
new value of the receiver, and a method that additionally mutates an
argument returns the final state of that argument as well.
-/

namespace Spec2Proof

/-- The internal 4-tuple `_q` of `TSMT$Quaternion`: `q0` is the real (w)
component, `q1 q2 q3` the i, j, k components, mirroring array slots 0-3. -/
structure Quat where
  q0 : ℝ
  q1 : ℝ
  q2 : ℝ
  q3 : ℝ

/-- `constructor()`: a unit quaternion `[1, 0, 0, 0]` is defined on
initialization. -/
noncomputable def unitQ : Quat := ⟨1, 0, 0, 0⟩

/-- `fromArray(...values)`: with fewer than three values the state is left
unchanged; with exactly three values they become the i, j, k components and
the real part is set to 1.0; with four (or more) values the first four are
loaded in slot order.  (The source's `!values` guard can never fire: a rest
parameter is always an array, and even an empty array is truthy in JS.) -/
noncomputable def fromArray (s : Quat) (values : List ℝ) : Quat :=
  if values.length < 3 then s
  else if values.length = 3 then
    ⟨1.0, values.getD 0 0, values.getD 1 0, values.getD 2 0⟩
  else
    ⟨values.getD 0 0, values.getD 1 0, values.getD 2 0, values.getD 3 0⟩

/-- `clone()`: a fresh unit quaternion loaded with the four current values
via `fromArray`. -/
noncomputable def clone (s : Quat) : Quat :=
  fromArray unitQ [s.q0, s.q1, s.q2, s.q3]

/-- `multiply(q)`: the receiver is overwritten by the Hamilton product
`this * q`, using the exact component expressions of the source. -/
noncomputable def multiply (s q : Quat) : Quat :=
  let aW := s.q0
  let aX := s.q1
  let aY := s.q2
  let aZ := s.q3
  let bW := q.q0
  let bX := q.q1
  let bY := q.q2
  let bZ := q.q3
  ⟨aW*bW - aX*bX - aY*bY - aZ*bZ,
   aW*bX + aX*bW + aY*bZ - aZ*bY,
   aW*bY - aX*bZ + aY*bW + aZ*bX,
   aW*bZ + aX*bY - aY*bX + aZ*bW⟩

/-- `invert()`: with `l` the sum of squared components and
`d = 1` when `|l| < 1e-10` (else `1/l`), the source overwrites the state
with `[-q0*d, -q1*d, -q2*d, q3*d]`. -/
noncomputable def invert (s : Quat) : Quat :=
  let l := s.q0*s.q0 + s.q1*s.q1 + s.q2*s.q2 + s.q3*s.q3
  let d := if |l| < 1e-10 then 1 else 1/l
  ⟨-s.q0*d, -s.q1*d, -s.q2*d, s.q3*d⟩

/-- `inverse()`: clone the receiver, invert the clone, return it. -/
noncomputable def inverse (s : Quat) : Quat := invert (clone s)

/-- `length()`: the Euclidean 4-norm. -/
noncomputable def length (s : Quat) : ℝ :=
  Real.sqrt (s.q0*s.q0 + s.q1*s.q1 + s.q2*s.q2 + s.q3*s.q3)

/-- `normalize()`: scale all four components by `d`, where `d = 1.0` when
the norm's magnitude is below 1e-10 and `1.0 / l` otherwise. -/
noncomputable def normalize (s : Quat) : Quat :=
  let l := length s
  let d := if |l| < 1e-10 then 1.0 else 1.0 / l
  ⟨s.q0*d, s.q1*d, s.q2*d, s.q3*d⟩

/-- `add(q)`: componentwise sum overwriting the receiver. -/
noncomputable def add (s q : Quat) : Quat :=
  ⟨s.q0 + q.q0, s.q1 + q.q1, s.q2 + q.q2, s.q3 + q.q3⟩

/-- `multiplyByScalar(a)`: all four components scaled by `a`, overwriting
the receiver. -/
noncomputable def multiplyByScalar (s : Quat) (a : ℝ) : Quat :=
  ⟨s.q0*a, s.q1*a, s.q2*a, s.q3*a⟩

/-- `dot(q)`: 4-component inner product. -/
noncomputable def dot (s q : Quat) : ℝ :=
  q.q0*s.q0 + q.q1*s.q1 + q.q2*s.q2 + q.q3*s.q3

/-- `slerp(q, _t)`: spherical interpolation, transcribed exactly from the
source including its index quirks: `qax` and `qay` both read slot 2 of the
receiver, and the last term of `ctheta` is `qaw*qaw` (not `qaw*qbw`); the
degenerate branch rebuilds the result via `fromArray(qax, qay, qaz, qaw)`. -/
noncomputable def slerp (s q : Quat) (t0 : ℝ) : Quat :=
  let t := min (max 0.0 t0) 1.0
  let qt := clone s
  let qaw := s.q0
  let qax := s.q2
  let qay := s.q2
  let qaz := s.q3
  let qbw := q.q0
  let qbx := q.q1
  let qby := q.q2
  let qbz := q.q3
  let ctheta := qax*qbx + qay*qby + qaz*qbz + qaw*qaw
  if |ctheta| ≥ 1.0 then
    fromArray qt [qax, qay, qaz, qaw]
  else
    let qbx2 := if ctheta < 0 then -qbx else qbx
    let qby2 := if ctheta < 0 then -qby else qby
    let qbz2 := if ctheta < 0 then -qbz else qbz
    let qbw2 := if ctheta < 0 then -qbw else qbw
    let ctheta2 := if ctheta < 0 then -ctheta else ctheta
    let halfTheta := Real.arccos ctheta2
    let sinHalfTheta := Real.sqrt (1.0 - ctheta2*ctheta2)
    if |sinHalfTheta| < 0.001 then
      fromArray qt [qax*0.5 + qbx2*0.5, qay*0.5 + qby2*0.5,
                    qaz*0.5 + qbz2*0.5, qaw*0.5 + qbw2*0.5]
    else
      let rA := Real.sin ((1.0 - t)*halfTheta) / sinHalfTheta
      let rB := Real.sin (t*halfTheta) / sinHalfTheta
      fromArray qt [qax*rA + qbx2*rB, qay*rA + qby2*rB,
                    qaz*rA + qbz2*rB, qaw*rA + qbw2*rB]

/-- `nlerp(q, _t)`: clamp t, clone the receiver, blend by `1-t` and `t`,
add, normalize.  The source scales the argument `q` itself (`q.multiplyByScalar(t)`)
without cloning it, so the pair returned here carries both the method's
return value and the final state of the argument `q` after the call. -/
noncomputable def nlerp (s q : Quat) (t0 : ℝ) : Quat × Quat :=
  let tc := min (max 0.0 t0) 1.0
  let qt := clone s
  let t1 := 1.0 - tc
  let t := if dot s q < 0.0 then -tc else tc
  let qta := multiplyByScalar qt t1
  let qarg := multiplyByScalar q t
  let qtb := add qta qarg
  (normalize qtb, qarg)

/-- A 3×3 matrix of numbers, mirroring the source's `Array<Array<number>>`
with exactly three rows of three entries (the source's `m.length != 3`
early return cannot fire for such a value, so it is not modelled). -/
structure Mat3 where
  m00 : ℝ
  m01 : ℝ
  m02 : ℝ
  m10 : ℝ
  m11 : ℝ
  m12 : ℝ
  m20 : ℝ
  m21 : ℝ
  m22 : ℝ

/-- `fromRotationMatrix(m)`: pick `u` as the index of the largest diagonal
entry with `v, w` the even permutation of the remaining indices, set
`_q[u] = 0.5·r` with `r = sqrt(1 + m[u][u] - m[v][v] - m[w][w])`, then
`_q[v] = (0.5/r)(m[v][u]+m[u][v])`, `_q[w] = (0.5/r)(m[u][w]+m[w][u])` and
`_q[3] = (0.5/r)(m[v][w]-m[w][v])`; the three branches below spell this
out for u = 0, 1, 2. -/
noncomputable def fromRotationMatrix (m : Mat3) : Quat :=
  if m.m00 > m.m11 ∧ m.m00 > m.m22 then
    let r := Real.sqrt (1 + m.m00 - m.m11 - m.m22)
    let r2 := 0.5 / r
    ⟨0.5*r, r2*(m.m10 + m.m01), r2*(m.m02 + m.m20), r2*(m.m12 - m.m21)⟩
  else if m.m11 > m.m00 ∧ m.m11 > m.m22 then
    let r := Real.sqrt (1 + m.m11 - m.m22 - m.m00)
    let r2 := 0.5 / r
    ⟨r2*(m.m10 + m.m01), 0.5*r, r2*(m.m21 + m.m12), r2*(m.m20 - m.m02)⟩
  else
    let r := Real.sqrt (1 + m.m22 - m.m00 - m.m11)
    let r2 := 0.5 / r
    ⟨r2*(m.m02 + m.m20), r2*(m.m21 + m.m12), 0.5*r, r2*(m.m01 - m.m10)⟩

/-- `toRotationMatrix()`: reads `_q[0]` as qW and `_q[1..3]` as qX, qY, qZ;
when the sum of squared components has magnitude above 1e-10 it produces
the 3×3 matrix below, otherwise it returns an empty result (`none`). -/
noncomputable def toRotationMatrix (s : Quat) : Option Mat3 :=
  let qW := s.q0
  let qX := s.q1
  let qY := s.q2
  let qZ := s.q3
  let d := qW*qW + qX*qX + qY*qY + qZ*qZ
  if |d| > 1e-10 then
    let di := 1/d
    let d2 := di + di
    some ⟨di*(qW*qW + qX*qX - qY*qY - qZ*qZ), d2*(qW*qZ + qX*qY), d2*(qX*qZ - qW*qY),
          d2*(qX*qY - qW*qZ), di*(qW*qW - qX*qX + qY*qY - qZ*qZ), d2*(qW*qX + qY*qZ),
          d2*(qW*qY + qX*qZ), d2*(qY*qZ - qW*qX), di*(qW*qW - qX*qX - qY*qY + qZ*qZ)⟩
  else none

/-- Auxiliary: `clone` reproduces the receiver's value exactly. -/
theorem clone_eq (s : Quat) : clone s = s := by
  simp [clone, fromArray, unitQ]

/-- C6: `multiply` is exactly the Hamilton product with the receiver as the
left operand: `w' = w₁w₂ − i₁i₂ − j₁j₂ − k₁k₂`, `i' = w₁i₂ + i₁w₂ + j₁k₂ −
k₁j₂`, `j' = w₁j₂ − i₁k₂ + j₁w₂ + k₁i₂`, `k' = w₁k₂ + i₁j₂ − j₁i₂ + k₁w₂`. -/
theorem multiply_hamilton (w1 i1 j1 k1 w2 i2 j2 k2 : ℝ) :
    multiply ⟨w1, i1, j1, k1⟩ ⟨w2, i2, j2, k2⟩ =
      ⟨w1*w2 - i1*i2 - j1*j2 - k1*k2,
       w1*i2 + i1*w2 + j1*k2 - k1*j2,
       w1*j2 - i1*k2 + j1*w2 + k1*i2,
       w1*k2 + i1*j2 - j1*i2 + k1*w2⟩ := rfl

/-- C10: `fromArray` with fewer than three values leaves every component
unchanged (and raises no error); with exactly three values the real
component becomes 1.0 and the three values become i, j, k. -/
theorem fromArray_short_and_three (s : Quat) (vs : List ℝ) (a b c : ℝ)
    (h : vs.length < 3) :
    fromArray s vs = s ∧ fromArray s [a, b, c] = ⟨1, a, b, c⟩ := by
  constructor
  · simp [fromArray, h]
  · norm_num [fromArray]

/-- Witness for C10 at concrete inputs: the empty call leaves the state
unchanged, and a three-value call sets w to 1. -/
theorem fromArray_short_and_three_witness :
    fromArray ⟨2, 3, 4, 5⟩ [] = ⟨2, 3, 4, 5⟩ ∧
      fromArray ⟨2, 3, 4, 5⟩ [9, 8, 7] = ⟨1, 9, 8, 7⟩ :=
  fromArray_short_and_three ⟨2, 3, 4, 5⟩ [] 9 8 7 (by simp)

/-- C1: evaluation at the failing input q = (1,1,0,0) (squared norm 2, far
above 1e-10): Hamilton-multiplying q by `inverse(q)` (invert applied to a
clone of q) yields (0,-1,0,0), not the identity quaternion (1,0,0,0). -/
theorem multiply_inverse_of_1100 :
    multiply ⟨1, 1, 0, 0⟩ (inverse ⟨1, 1, 0, 0⟩) = ⟨0, -1, 0, 0⟩ ∧
      (⟨0, -1, 0, 0⟩ : Quat) ≠ ⟨1, 0, 0, 0⟩ := by
  constructor
  · rw [inverse, clone_eq]
    norm_num [multiply, invert, Quat.mk.injEq]
  · norm_num [Quat.mk.injEq]

/-- C2 counterexample: at q = (1,1,0,0) (squared norm 2 ≥ 1e-10, so
d = 1/2) the claim predicts `invert q = (w·d, -i·d, -j·d, -k·d) =
(1/2, -1/2, 0, 0)` with the w component held non-negated; the code instead
negates the w component and yields (-1/2, -1/2, 0, 0). -/
theorem invert_not_w_held :
    invert ⟨1, 1, 0, 0⟩ = ⟨-(1/2), -(1/2), 0, 0⟩ ∧
      invert ⟨1, 1, 0, 0⟩ ≠ ⟨1/2, -(1/2), 0, 0⟩ := by
  constructor <;> norm_num [invert, Quat.mk.injEq]

/-- C2 (amended): if the squared norm has magnitude below 1e-10, invert
scales by 1; otherwise it scales by d = 1/(w²+i²+j²+k²); in both cases the
k component is held non-negated while the w, i and j components are
negated. -/
theorem invert_components (q : Quat) :
    (|q.q0*q.q0 + q.q1*q.q1 + q.q2*q.q2 + q.q3*q.q3| < 1e-10 →
      invert q = ⟨-q.q0, -q.q1, -q.q2, q.q3⟩) ∧
    (1e-10 ≤ |q.q0*q.q0 + q.q1*q.q1 + q.q2*q.q2 + q.q3*q.q3| →
      invert q =
        ⟨-q.q0 * (1/(q.q0*q.q0 + q.q1*q.q1 + q.q2*q.q2 + q.q3*q.q3)),
         -q.q1 * (1/(q.q0*q.q0 + q.q1*q.q1 + q.q2*q.q2 + q.q3*q.q3)),
         -q.q2 * (1/(q.q0*q.q0 + q.q1*q.q1 + q.q2*q.q2 + q.q3*q.q3)),
         q.q3 * (1/(q.q0*q.q0 + q.q1*q.q1 + q.q2*q.q2 + q.q3*q.q3))⟩) := by
  constructor
  · intro h
    simp [invert, h]
  · intro h
    simp [invert, not_lt.mpr h]

/-- Witness for C2 (amended) at the zero quaternion (below threshold) and
at (1,1,0,0) (above threshold). -/
theorem invert_components_witness :
    invert ⟨0, 0, 0, 0⟩ = ⟨0, 0, 0, 0⟩ ∧
      invert ⟨1, 1, 0, 0⟩ = ⟨-(1/2), -(1/2), 0, 0⟩ := by
  constructor
  · have h := (invert_components ⟨0, 0, 0, 0⟩).1 (by norm_num)
    simpa using h
  · have h := (invert_components ⟨1, 1, 0, 0⟩).2 (by norm_num)
    rw [h]
    norm_num [Quat.mk.injEq]

/-- C3: evaluation at the failing input qa = qb = (1,0,0,0), t = 0.5: the
computed `cosHalfTheta` is 1, so the degenerate branch fires, yet slerp
returns (0,0,0,1) rather than the first operand (1,0,0,0) unchanged (the
source loads `fromArray(qax, qay, qaz, qaw)` with `qax` mis-read from
slot 2 and `fromArray` expecting w first). -/
theorem slerp_degenerate_of_identity :
    slerp ⟨1, 0, 0, 0⟩ ⟨1, 0, 0, 0⟩ 0.5 = ⟨0, 0, 0, 1⟩ ∧
      (⟨0, 0, 0, 1⟩ : Quat) ≠ ⟨1, 0, 0, 0⟩ := by
  constructor
  · rw [slerp]
    norm_num [clone_eq, fromArray, Quat.mk.injEq]
  · norm_num [Quat.mk.injEq]

/-- C5: evaluation at the failing input q1 = q2 = (1,0,0,0), t = 0.5: after
`nlerp` the second operand has been scaled in place to (0.5,0,0,0) and no
longer holds its original component values (1,0,0,0). -/
theorem nlerp_mutates_second_operand :
    (nlerp ⟨1, 0, 0, 0⟩ ⟨1, 0, 0, 0⟩ 0.5).2 = ⟨1/2, 0, 0, 0⟩ ∧
      (⟨1/2, 0, 0, 0⟩ : Quat) ≠ ⟨1, 0, 0, 0⟩ := by
  constructor
  · rw [nlerp]
    norm_num [dot, multiplyByScalar, Quat.mk.injEq]
  · norm_num [Quat.mk.injEq]

/-- C8: evaluation at the failing input M = [[1,0,0],[0,7/25,-24/25],
[0,24/25,7/25]] (the orthonormal rotation about the x-axis with cosine
7/25): `fromRotationMatrix` stores the quaternion in x,y,z,w slot order
while `toRotationMatrix` reads w,x,y,z slot order, so the round trip
returns a rotation about the z-axis, [[-7/25,-24/25,0],[24/25,-7/25,0],
[0,0,1]], instead of reproducing M. -/
theorem rotation_roundtrip_of_rotx :
    toRotationMatrix (fromRotationMatrix ⟨1, 0, 0, 0, 7/25, -(24/25), 0, 24/25, 7/25⟩) =
      some ⟨-(7/25), -(24/25), 0, 24/25, -(7/25), 0, 0, 0, 1⟩ ∧
    (⟨-(7/25), -(24/25), 0, 24/25, -(7/25), 0, 0, 0, 1⟩ : Mat3) ≠
      ⟨1, 0, 0, 0, 7/25, -(24/25), 0, 24/25, 7/25⟩ := by
  have h36 : Real.sqrt 36 = 6 := by
    rw [show (36 : ℝ) = 6^2 by norm_num, Real.sqrt_sq (by norm_num)]
  have h25 : Real.sqrt 25 = 5 := by
    rw [show (25 : ℝ) = 5^2 by norm_num, Real.sqrt_sq (by norm_num)]
  have hq : fromRotationMatrix ⟨1, 0, 0, 0, 7/25, -(24/25), 0, 24/25, 7/25⟩ =
      ⟨3/5, 0, 0, -(4/5)⟩ := by
    simp only [fromRotationMatrix]
    rw [if_pos (by norm_num)]
    norm_num [h36, h25, Quat.mk.injEq]
  constructor
  · rw [hq]
    simp only [toRotationMatrix]
    rw [if_pos (by norm_num)]
    norm_num [Mat3.mk.injEq]
  · norm_num [Mat3.mk.injEq]

/-- C7: for a quaternion whose Euclidean 4-norm is at least 1e-10,
`normalize` produces a quaternion of length exactly 1 (hence within ±1e-9
of 1) that is a positive scalar multiple of the original (same direction);
for a quaternion whose norm magnitude is below 1e-10, `normalize` scales
by a reciprocal of 1.0 and leaves the quaternion unchanged. -/
theorem normalize_unit_or_unchanged (q : Quat) :
    (1e-10 ≤ length q →
      length (normalize q) = 1 ∧
        ∃ c, 0 < c ∧ normalize q = multiplyByScalar q c) ∧
    (|length q| < 1e-10 → normalize q = q) := by
  constructor
  · intro h
    have hl0 : (0:ℝ) < length q := lt_of_lt_of_le (by norm_num) h
    have hcond : ¬ |length q| < 1e-10 := not_lt.mpr (by rwa [abs_of_nonneg hl0.le])
    have hd0 : (0:ℝ) < 1.0 / length q := by positivity
    have hnq : normalize q = ⟨q.q0*(1.0/length q), q.q1*(1.0/length q),
        q.q2*(1.0/length q), q.q3*(1.0/length q)⟩ := by
      simp [normalize, hcond]
    refine ⟨?_, 1.0 / length q, hd0, by rw [hnq]; rfl⟩
    rw [hnq, length]
    have hs : q.q0*(1.0/length q) * (q.q0*(1.0/length q)) +
        q.q1*(1.0/length q) * (q.q1*(1.0/length q)) +
        q.q2*(1.0/length q) * (q.q2*(1.0/length q)) +
        q.q3*(1.0/length q) * (q.q3*(1.0/length q)) =
        (q.q0*q.q0 + q.q1*q.q1 + q.q2*q.q2 + q.q3*q.q3) *
          ((1.0/length q) * (1.0/length q)) := by ring
    have hnn : (0:ℝ) ≤ q.q0*q.q0 + q.q1*q.q1 + q.q2*q.q2 + q.q3*q.q3 := by
      nlinarith [mul_self_nonneg q.q0, mul_self_nonneg q.q1, mul_self_nonneg q.q2,
        mul_self_nonneg q.q3]
    rw [hs, Real.sqrt_mul hnn, Real.sqrt_mul_self hd0.le]
    have hlen : Real.sqrt (q.q0*q.q0 + q.q1*q.q1 + q.q2*q.q2 + q.q3*q.q3) = length q := rfl
    rw [hlen]
    field_simp
    norm_num
  · intro h
    simp only [normalize, h, if_true]
    cases q
    norm_num [Quat.mk.injEq]

/-- Witness for C7: q = (3,0,4,0) has length 5 ≥ 1e-10 and normalizes to a
unit-length quaternion; the zero quaternion has length 0 < 1e-10 and is
left unchanged. -/
theorem normalize_unit_or_unchanged_witness :
    length (normalize ⟨3, 0, 4, 0⟩) = 1 ∧ normalize ⟨0, 0, 0, 0⟩ = ⟨0, 0, 0, 0⟩ := by
  have h5 : length (⟨3, 0, 4, 0⟩ : Quat) = 5 := by
    rw [length, show ((3:ℝ)*3 + 0*0 + 4*4 + 0*0) = 5^2 by norm_num,
      Real.sqrt_sq (by norm_num)]
  have h0 : length (⟨0, 0, 0, 0⟩ : Quat) = 0 := by
    rw [length]
    norm_num
  refine ⟨((normalize_unit_or_unchanged ⟨3, 0, 4, 0⟩).1 ?_).1,
    (normalize_unit_or_unchanged ⟨0, 0, 0, 0⟩).2 ?_⟩
  · rw [h5]; norm_num
  · rw [h0]; norm_num

/-- A JavaScript number as seen by the validation guards `isNaN` and
`isFinite`: either a finite numeric value, NaN, or a signed infinity. -/
inductive JSNum where
  | num : ℝ → JSNum
  | nan : JSNum
  | posInf : JSNum
  | negInf : JSNum

/-- The guard `!isNaN(value) && isFinite(value)`: true exactly for finite
numeric values. -/
def JSNum.isFiniteNum : JSNum → Bool
  | .num _ => true
  | _ => false

/-- The `Q` value holder (`state/definitions/Q.ts`): private component
fields `_w _i _j _k` (initialized to 0) and a public `id` string. -/
structure Q where
  id : String
  w : JSNum
  i : JSNum
  j : JSNum
  k : JSNum

/-- `set w(value)`: assign only when the input is neither NaN nor
infinite, otherwise keep the prior value; no exception in either case. -/
def setW (q : Q) (value : JSNum) : Q :=
  if value.isFiniteNum then { q with w := value } else q

/-- `set i(value)`: same validation policy as `set w`. -/
def setI (q : Q) (value : JSNum) : Q :=
  if value.isFiniteNum then { q with i := value } else q

/-- `set j(value)`: same validation policy as `set w`. -/
def setJ (q : Q) (value : JSNum) : Q :=
  if value.isFiniteNum then { q with j := value } else q

/-- `set k(value)`: same validation policy as `set w`. -/
def setK (q : Q) (value : JSNum) : Q :=
  if value.isFiniteNum then { q with k := value } else q

/-- The `Q` constructor: fields start at 0, the four component setters are
applied to the constructor arguments in order, and the id is assigned when
provided. -/
def mkQ (wValue iValue jValue kValue : JSNum) (idOpt : Option String) : Q :=
  let q0 : Q := { id := "", w := .num 0, i := .num 0, j := .num 0, k := .num 0 }
  let q1 := setK (setJ (setI (setW q0 wValue) iValue) jValue) kValue
  match idOpt with
  | some s => { q1 with id := s }
  | none => q1

/-- The invariant of C9: all four stored components are finite numbers. -/
def allFinite (q : Q) : Prop :=
  q.w.isFiniteNum = true ∧ q.i.isFiniteNum = true ∧
    q.j.isFiniteNum = true ∧ q.k.isFiniteNum = true

theorem allFinite_setW (q : Q) (v : JSNum) (h : allFinite q) : allFinite (setW q v) := by
  cases v <;> simp_all [setW, allFinite, JSNum.isFiniteNum]

theorem allFinite_setI (q : Q) (v : JSNum) (h : allFinite q) : allFinite (setI q v) := by
  cases v <;> simp_all [setI, allFinite, JSNum.isFiniteNum]

theorem allFinite_setJ (q : Q) (v : JSNum) (h : allFinite q) : allFinite (setJ q v) := by
  cases v <;> simp_all [setJ, allFinite, JSNum.isFiniteNum]

theorem allFinite_setK (q : Q) (v : JSNum) (h : allFinite q) : allFinite (setK q v) := by
  cases v <;> simp_all [setK, allFinite, JSNum.isFiniteNum]

/-- C9: every constructed `Q` satisfies the all-components-finite
invariant; each component setter preserves the invariant, and on a
non-finite input it leaves the holder completely unchanged (prior value
retained, no exception — the setters are total functions). -/
theorem Q_finite_invariant :
    (∀ wv iv jv kv idOpt, allFinite (mkQ wv iv jv kv idOpt)) ∧
    (∀ q v, (allFinite q → allFinite (setW q v)) ∧
      (v.isFiniteNum = false → setW q v = q)) ∧
    (∀ q v, (allFinite q → allFinite (setI q v)) ∧
      (v.isFiniteNum = false → setI q v = q)) ∧
    (∀ q v, (allFinite q → allFinite (setJ q v)) ∧
      (v.isFiniteNum = false → setJ q v = q)) ∧
    (∀ q v, (allFinite q → allFinite (setK q v)) ∧
      (v.isFiniteNum = false → setK q v = q)) := by
  refine ⟨?_, ?_, ?_, ?_, ?_⟩
  · intro wv iv jv kv idOpt
    have hbase : allFinite { id := "", w := .num 0, i := .num 0, j := .num 0, k := .num 0 } := by
      simp [allFinite, JSNum.isFiniteNum]
    have h4 := allFinite_setK _ kv (allFinite_setJ _ jv (allFinite_setI _ iv
      (allFinite_setW _ wv hbase)))
    cases idOpt <;> simpa [mkQ, allFinite] using h4
  · exact fun q v => ⟨allFinite_setW q v, fun hv => by simp [setW, hv]⟩
  · exact fun q v => ⟨allFinite_setI q v, fun hv => by simp [setI, hv]⟩
  · exact fun q v => ⟨allFinite_setJ q v, fun hv => by simp [setJ, hv]⟩
  · exact fun q v => ⟨allFinite_setK q v, fun hv => by simp [setK, hv]⟩

/-- Witness for C9: a concrete construction is all-finite; a NaN
assignment to it is silently ignored; a finite assignment keeps the
invariant. -/
theorem Q_finite_invariant_witness :
    allFinite (mkQ (.num 1) (.num 2) (.num 3) (.num 4) none) ∧
      setW (mkQ (.num 1) (.num 2) (.num 3) (.num 4) none) .nan =
        mkQ (.num 1) (.num 2) (.num 3) (.num 4) none ∧
      allFinite (setI (mkQ (.num 1) (.num 2) (.num 3) (.num 4) none) (.num 7)) :=
  ⟨Q_finite_invariant.1 _ _ _ _ _,
   (Q_finite_invariant.2.1 _ _).2 rfl,
   (Q_finite_invariant.2.2.1 _ _).1 (Q_finite_invariant.1 _ _ _ _ _)⟩

/-- Action-type string constants from `CalcActions`. -/
def Q_NONE : String := "[Calc] None"

def TO_MEMORY : String := "[Calc] To_Memory"

def FROM_MEMORY : String := "[Calc] From_Memory"

/-- Modelled from the spec: the class `QMemory` (imported from
`state/definitions/QMemory` by the reducers and components) is not among
the sources.  Per the spec a MemorySlot holds an optional stored
QuaternionValue, an operand-identity tag and a provenance action tag. -/
structure QMemory where
  action : String
  id : String
  memory : Option Q

/-- Modelled from the spec: a freshly constructed, never-stored memory
slot — created empty, its held value absent. -/
def freshQMemory : QMemory := { action := Q_NONE, id := "", memory := none }

/-- The `QMemoryAction` interface: a type tag and a `QMemory` payload. -/
structure QMemoryAction where
  type : String
  payload : QMemory

/-- `memoryReducer(state, action)`: TO_MEMORY overwrites the slot from the
payload; FROM_MEMORY re-emits the held state with the provenance tag set
to FROM_MEMORY; any other action returns the state unchanged. -/
def memoryReducer (state : QMemory) (action : QMemoryAction) : QMemory :=
  if action.type = TO_MEMORY then
    { action := action.type, id := action.payload.id, memory := action.payload.memory }
  else if action.type = FROM_MEMORY then
    { action := FROM_MEMORY, id := state.id, memory := state.memory }
  else
    state

/-- C4: recalling (FROM_MEMORY) from a freshly constructed, never-stored
memory slot yields an absent value — in particular distinguishable from a
slot holding the zero quaternion — and the reducer is a total function, so
no error reaches the caller. -/
theorem recall_fresh_slot_absent (p : QMemory) :
    (memoryReducer freshQMemory ⟨FROM_MEMORY, p⟩).memory = none ∧
      ∀ qv : Q, (memoryReducer freshQMemory ⟨FROM_MEMORY, p⟩).memory ≠ some qv := by
  constructor <;>
    simp [memoryReducer, freshQMemory, TO_MEMORY, FROM_MEMORY]

end Spec2Proof
